/-
Verification development for the multi-provider streaming orchestration layer
of the SuperAI homework-help web app.

Shallow embedding conventions:
- JavaScript strings are embedded as `List Char` (`Str`); `''` is `[]`,
  `a + b` is `a ++ b`, `s.slice(n)` is `s.drop n`, `s.startsWith(p)` is
  `p <+: s`, `s.endsWith(p)` is `p <:+ s`, `s.includes(p)` is `p <:+: s`.
- Async generators are embedded as pure functions from the list of wire-level
  inputs (already-parsed stream chunks / SSE data objects) to the list of
  yielded normalized events plus a result describing how the generator ended.
- Thrown exceptions are embedded as an explicit result constructor carrying
  the error message.

Sources embedded: `src/lib/gemini.ts` (Gemini adapter), `src/lib/openai.ts`
(OpenAI adapter), `src/app/api/ask/route.ts` (orchestration router).
-/
import Mathlib

namespace SuperAI

/-- JavaScript strings, embedded as lists of characters. -/
abbrev Str := List Char

/-- Convert a Lean string literal to the `List Char` embedding. -/
def toL (s : String) : Str := s.data

/-- JS `String.prototype.toLowerCase`, restricted to per-character lowering. -/
def lowerStr (s : Str) : Str := s.map Char.toLower

/-- JS `String.prototype.trim`: strip whitespace from both ends. -/
def trimStr (s : Str) : Str :=
  ((s.dropWhile Char.isWhitespace).reverse.dropWhile Char.isWhitespace).reverse

/-- JS `hay.includes(pat)` as a Bool (substring containment). -/
def containsStr (hay pat : Str) : Bool := decide (pat <:+: hay)

/-! ## `src/lib/gemini.ts` : `getDeltaAndNextText` (lines 51-64)

```js
function getDeltaAndNextText(incoming, previous) {
    if (!incoming) return { delta: '', next: previous };
    if (!previous) return { delta: incoming, next: incoming };
    if (incoming.startsWith(previous)) {
        return { delta: incoming.slice(previous.length), next: incoming };
    }
    if (previous.endsWith(incoming) || previous.includes(incoming)) {
        return { delta: '', next: previous };
    }
    return { delta: incoming, next: previous + incoming };
}
```
The returned pair is `(delta, next)`. -/

/-- Embedding of `getDeltaAndNextText` from `src/lib/gemini.ts`. -/
def getDeltaAndNextText (incoming previous : Str) : Str × Str :=
  if incoming = [] then ([], previous)
  else if previous = [] then (incoming, incoming)
  else if previous <+: incoming then (incoming.drop previous.length, incoming)
  else if incoming <:+ previous ∨ incoming <:+: previous then ([], previous)
  else (incoming, previous ++ incoming)

/-- Feeding a sequence of cumulative strings through `getDeltaAndNextText`,
threading the returned baseline, starting from the given baseline; returns
the list of deltas (one per fed string) and the final baseline.  This models
the repeated calls in `streamGeminiResponse` for one text category. -/
def geminiFeed : List Str → Str → List Str × Str
  | [], prev => ([], prev)
  | t :: ts, prev =>
    let r := getDeltaAndNextText t prev
    let rest := geminiFeed ts r.2
    (r.1 :: rest.1, rest.2)

/-! Sanity checks for the embedding. -/

example : toL "AB" = ['A', 'B'] := rfl
example : getDeltaAndNextText (toL "AB") (toL "A") = (toL "B", toL "AB") := by decide
example : getDeltaAndNextText (toL "B") (toL "AB") = ([], toL "AB") := by decide
example : getDeltaAndNextText (toL "B") (toL "A") = (toL "B", toL "AB") := by decide

/-! ## Claims C2 / C9 / C3 about the diffing function -/

/-- Helper: the returned baseline is always the old baseline with the delta
appended. -/
theorem getDeltaAndNextText_append_eq (incoming previous : Str) :
    (getDeltaAndNextText incoming previous).2 =
      previous ++ (getDeltaAndNextText incoming previous).1 := by
  unfold getDeltaAndNextText
  split_ifs with h1 h2 h3 h4
  · simp
  · simp [h2]
  · obtain ⟨t, rfl⟩ := h3
    simp
  · simp
  · simp

/-- Claim C9: for all strings `(incoming, previous)`, `getDeltaAndNextText`
returns a pair `(delta, next)` with `next = previous ++ delta`, so the tracked
baseline only ever grows by exactly the emitted delta and never shrinks. -/
theorem getDeltaAndNextText_next_eq_append (incoming previous : Str) :
    (getDeltaAndNextText incoming previous).2 =
      previous ++ (getDeltaAndNextText incoming previous).1 :=
  getDeltaAndNextText_append_eq incoming previous

/-- Claim C2 (as stated) is false on the code: in the no-overlap branch the
new baseline is `previous ++ incoming`, not `incoming` alone.  Concretely, for
`incoming = "B"`, `previous = "A"` (no overlap in either direction) the
returned baseline is `"AB"`, not `"B"`. -/
theorem getDeltaAndNextText_baseline_counterexample :
    ¬ (toL "A") <+: (toL "B") ∧ ¬ (toL "B") <:+: (toL "A") ∧
    (getDeltaAndNextText (toL "B") (toL "A")).1 = toL "B" ∧
    (getDeltaAndNextText (toL "B") (toL "A")).2 ≠ toL "B" := by decide

/-- Helper: full branch analysis of `getDeltaAndNextText`. -/
theorem getDeltaAndNextText_branches (incoming previous : Str) :
    (previous <+: incoming →
      getDeltaAndNextText incoming previous = (incoming.drop previous.length, incoming)) ∧
    ((incoming <:+ previous ∨ incoming <:+: previous) →
      getDeltaAndNextText incoming previous = ([], previous)) ∧
    (¬ previous <+: incoming → ¬ incoming <:+: previous →
      getDeltaAndNextText incoming previous = (incoming, previous ++ incoming)) := by
  refine ⟨?_, ?_, ?_⟩
  · intro hpre
    by_cases h1 : incoming = []
    · obtain ⟨t, ht⟩ := hpre
      have hp : previous = [] := by
        subst h1
        exact (List.append_eq_nil.mp ht).1
      subst h1
      subst hp
      simp [getDeltaAndNextText]
    · by_cases h2 : previous = []
      · subst h2
        simp [getDeltaAndNextText, h1]
      · simp [getDeltaAndNextText, h1, h2, hpre]
  · intro hcontained
    have hinf : incoming <:+: previous := by
      rcases hcontained with h | h
      · exact h.isInfix
      · exact h
    by_cases h1 : incoming = []
    · simp [getDeltaAndNextText, h1]
    · by_cases h2 : previous = []
      · obtain ⟨s, t, hst⟩ := hinf
        subst h2
        rcases List.append_eq_nil.mp hst with ⟨hst1, -⟩
        exact absurd (List.append_eq_nil.mp hst1).2 h1
      · by_cases h3 : previous <+: incoming
        · have hlen : previous.length = incoming.length :=
            Nat.le_antisymm h3.length_le hinf.length_le
          have heq : previous = incoming := h3.eq_of_length hlen
          subst heq
          simp [getDeltaAndNextText, h1, h2, List.drop_length]
        · simp [getDeltaAndNextText, h1, h2, h3, hcontained]
  · intro hnpre hninf
    by_cases h1 : incoming = []
    · exact absurd (⟨[], previous, by simp [h1]⟩ : incoming <:+: previous) hninf
    · by_cases h2 : previous = []
      · exact absurd (⟨incoming, by simp [h2]⟩ : previous <+: incoming) hnpre
      · have h4 : ¬ (incoming <:+ previous ∨ incoming <:+: previous) := by
          rintro (h | h)
          · exact hninf h.isInfix
          · exact hninf h
        simp [getDeltaAndNextText, h1, h2, hnpre, h4]

/-- Claim C2 (amended): if `incoming` starts with `previous`, the delta is the
suffix of `incoming` after `previous` and the baseline becomes `incoming`; if
`previous` ends with or contains `incoming`, the delta is empty and the
baseline is unchanged; otherwise the whole incoming string is the delta and
the baseline becomes `previous ++ incoming` (not `incoming` alone). -/
theorem getDeltaAndNextText_cases (incoming previous : Str) :
    (previous <+: incoming →
      getDeltaAndNextText incoming previous = (incoming.drop previous.length, incoming)) ∧
    ((incoming <:+ previous ∨ incoming <:+: previous) →
      getDeltaAndNextText incoming previous = ([], previous)) ∧
    (¬ previous <+: incoming → ¬ incoming <:+: previous →
      getDeltaAndNextText incoming previous = (incoming, previous ++ incoming)) :=
  getDeltaAndNextText_branches incoming previous

/-- Witness for `getDeltaAndNextText_cases` at concrete inputs. -/
theorem getDeltaAndNextText_cases_witness :
    getDeltaAndNextText (toL "AB") (toL "A") = (toL "B", toL "AB") ∧
    getDeltaAndNextText (toL "B") (toL "AB") = ([], toL "AB") ∧
    getDeltaAndNextText (toL "B") (toL "A") = (toL "B", toL "AB") := by
  refine ⟨?_, ?_, ?_⟩
  · exact (getDeltaAndNextText_cases (toL "AB") (toL "A")).1 (by decide)
  · exact (getDeltaAndNextText_cases (toL "B") (toL "AB")).2.1 (by decide)
  · exact (getDeltaAndNextText_cases (toL "B") (toL "A")).2.2 (by decide) (by decide)

/-- If the baseline is a prefix of the incoming cumulative string, the new
baseline is exactly the incoming string. -/
theorem getDeltaAndNextText_next_of_isPrefix {incoming previous : Str}
    (h : previous <+: incoming) :
    (getDeltaAndNextText incoming previous).2 = incoming := by
  rw [(getDeltaAndNextText_branches incoming previous).1 h]

/-- `geminiFeed` produces one delta per fed string. -/
theorem geminiFeed_length (ts : List Str) (prev : Str) :
    (geminiFeed ts prev).1.length = ts.length := by
  induction ts generalizing prev with
  | nil => rfl
  | cons t ts ih => simp [geminiFeed, ih]

/-- Key invariant behind claim C3: if consecutive fed strings form a chain
under the prefix ordering starting from the current baseline, then after any
number `k` of steps the baseline plus the concatenation of the first `k`
deltas equals the `k`-th cumulative string. -/
theorem geminiFeed_take_join (ts : List Str) (prev : Str)
    (h : List.Chain' (· <+: ·) (prev :: ts)) (k : ℕ) :
    prev ++ ((geminiFeed ts prev).1.take k).flatten = (ts.take k).getLastD prev := by
  induction ts generalizing prev k with
  | nil => simp [geminiFeed]
  | cons t ts ih =>
    have hpt : prev <+: t := (List.chain'_cons.mp h).1
    have hchain : List.Chain' (· <+: ·) (t :: ts) := (List.chain'_cons.mp h).2
    have hnext : (getDeltaAndNextText t prev).2 = t :=
      getDeltaAndNextText_next_of_isPrefix hpt
    have hdelta : prev ++ (getDeltaAndNextText t prev).1 = t := by
      rw [← getDeltaAndNextText_append_eq, hnext]
    cases k with
    | zero => simp
    | succ k =>
      simp only [geminiFeed, List.take_succ_cons, List.flatten_cons,
        List.getLastD_cons, hnext]
      rw [← List.append_assoc, hdelta]
      exact ih t hchain k

/-- Claim C3: for every sequence of cumulative text strings (each successive
string extending the previous one under the prefix order, which includes stale
exact re-sends) fed one by one through the diffing function starting from an
empty baseline, the concatenation of the first `k` emitted deltas equals the
`k`-th cumulative string (so no delta ever re-sends already-emitted content),
the concatenation of all deltas equals the final cumulative string, and in
particular feeding `"A"`, `"AB"`, `"AB"` yields deltas `"A"`, `"B"`, `""`. -/
theorem geminiFeed_deltas_reconstruct (ts : List Str)
    (h : List.Chain' (· <+: ·) ts) :
    (∀ k, ((geminiFeed ts []).1.take k).flatten = (ts.take k).getLastD []) ∧
    (geminiFeed ts []).1.flatten = ts.getLastD [] ∧
    geminiFeed [toL "A", toL "AB", toL "AB"] [] = ([toL "A", toL "B", []], toL "AB") := by
  have hchain : List.Chain' (· <+: ·) ([] :: ts) := by
    rw [List.chain'_cons']
    exact ⟨fun b _ => ⟨b, rfl⟩, h⟩
  have hmain : ∀ k, ((geminiFeed ts []).1.take k).flatten = (ts.take k).getLastD [] := by
    intro k
    have := geminiFeed_take_join ts [] hchain k
    simpa using this
  refine ⟨hmain, ?_, by decide⟩
  have hlen := geminiFeed_length ts []
  have := hmain ts.length
  rwa [← hlen, List.take_length, hlen, List.take_length] at this

/-- Witness for `geminiFeed_deltas_reconstruct` at the concrete cumulative
sequence `"A"`, `"AB"`, `"AB"`. -/
theorem geminiFeed_deltas_reconstruct_witness :
    ((geminiFeed [toL "A", toL "AB", toL "AB"] []).1.take 2).flatten = toL "AB" ∧
    (geminiFeed [toL "A", toL "AB", toL "AB"] []).1.flatten = toL "AB" := by
  have h := geminiFeed_deltas_reconstruct [toL "A", toL "AB", toL "AB"] (by
    rw [List.chain'_cons, List.chain'_cons]
    exact ⟨by decide, by decide, List.chain'_singleton _⟩)
  constructor
  · rw [h.1 2]
    decide
  · rw [h.2.1]
    decide

/-! ## `src/lib/gemini.ts` : `streamGeminiResponse` (lines 142-252)

The async generator is embedded as a pure function over the sequence of
attempt outcomes delivered by the vendor: one `AttemptOutcome` per tool-attempt
set in `buildAttemptToolSets()`, each consisting of the streamed chunks
followed by either a clean end of stream (`error = none`) or a thrown
error message (`error = some msg`). -/

/-- Normalized adapter event (`GeminiStreamEvent` / `OpenAIStreamEvent`):
`{type, content?}` with an optional content string. -/
inductive NEvent where
  | answerDelta (content : Option Str)
  | reasoningDelta (content : Option Str)
  | reasoningDone
deriving DecidableEq

/-- One part of a streamed Gemini chunk, after `normalizeToolPartText`:
`text` is the part's text (empty for skipped code-execution parts), `thought`
is the reasoning flag. -/
structure GPart where
  text : Str
  thought : Bool
deriving DecidableEq

/-- One streamed Gemini chunk: the candidate parts plus the chunk-level
`.text` fallback (empty when absent). -/
structure GChunk where
  parts : List GPart
  textFallback : Str
deriving DecidableEq

/-- The outcome of one tool attempt: the chunks streamed before the stream
either ended cleanly (`error = none`) or threw (`error = some msg`). -/
structure AttemptOutcome where
  chunks : List GChunk
  error : Option Str
deriving DecidableEq

/-- Mutable state of one `streamGeminiResponse` invocation: the
`emittedAnySummary` flag and the two diff baselines, all declared outside the
attempt loop and threading across attempts. -/
structure GState where
  emittedAnySummary : Bool
  prevAnswer : Str
  prevThought : Str
deriving DecidableEq

/-- Embedding of `isToolCompatibilityError` from `src/lib/gemini.ts`
(lines 105-110): the lowercased message must contain a tool keyword and an
incompatibility keyword (the regexes are alternations of literal substrings). -/
def isGeminiToolCompatibilityError (msg : Str) : Bool :=
  let m := lowerStr msg
  ([toL "tool", toL "tools", toL "google_search", toL "googlesearch",
    toL "code_execution", toL "codeexecution"].any fun pat => containsStr m pat) &&
  ([toL "unsupported", toL "not supported", toL "invalid", toL "unknown",
    toL "unrecognized", toL "not available", toL "not allowed"].any fun pat =>
      containsStr m pat)

/-- The `if (delta) yield {type:'answer_delta', content: delta}` pattern. -/
def answerEvs (d : Str) : List NEvent :=
  if d = [] then [] else [NEvent.answerDelta (some d)]

/-- The `if (delta) yield {type:'reasoning_summary_delta', ...}` pattern. -/
def reasoningEvs (d : Str) : List NEvent :=
  if d = [] then [] else [NEvent.reasoningDelta (some d)]

/-- The `if (delta) { emittedAnySummary = true; ... }` flag update. -/
def summaryFlagUpd (d : Str) (b : Bool) : Bool :=
  if d = [] then b else true

/-- Process the parts of one chunk (the inner `for (const part of streamParts)`
loop): returns the yielded events, the updated state, and the
`emittedFromParts` flag. -/
def processParts : GState → List GPart → List NEvent × GState × Bool
  | st, [] => ([], st, false)
  | st, p :: ps =>
    if p.text = [] then processParts st ps
    else if p.thought then
      let d := getDeltaAndNextText p.text st.prevThought
      let st' : GState := ⟨summaryFlagUpd d.1 st.emittedAnySummary, st.prevAnswer, d.2⟩
      let rest := processParts st' ps
      (reasoningEvs d.1 ++ rest.1, rest.2.1, true)
    else
      let d := getDeltaAndNextText p.text st.prevAnswer
      let st' : GState := ⟨st.emittedAnySummary, d.2, st.prevThought⟩
      let rest := processParts st' ps
      (answerEvs d.1 ++ rest.1, rest.2.1, true)

/-- Process one streamed chunk (parts loop plus the chunk-level `.text`
fallback path used when no part emitted): returns events, updated state, and
this chunk's contribution to `emittedAnyContentThisAttempt`. -/
def processChunk (st : GState) (c : GChunk) : List NEvent × GState × Bool :=
  let r := processParts st c.parts
  if r.2.2 then (r.1, r.2.1, true)
  else if c.textFallback = [] then (r.1, r.2.1, false)
  else
    let d := getDeltaAndNextText c.textFallback r.2.1.prevAnswer
    let st' : GState := ⟨r.2.1.emittedAnySummary, d.2, r.2.1.prevThought⟩
    (r.1 ++ answerEvs d.1, st', true)

/-- Process all chunks of one attempt, accumulating
`emittedAnyContentThisAttempt`. -/
def processChunks : GState → List GChunk → List NEvent × GState × Bool
  | st, [] => ([], st, false)
  | st, c :: cs =>
    let r := processChunk st c
    let rest := processChunks r.2.1 cs
    (r.1 ++ rest.1, rest.2.1, r.2.2 || rest.2.2)

/-- How a `streamGeminiResponse` invocation ends: clean completion, a thrown
error, or exhaustion of the attempt list without completing. -/
inductive GRes where
  | completed
  | thrown (msg : Str)
  | exhausted
deriving DecidableEq

/-- The attempt loop of `streamGeminiResponse` (lines 155-251): one
`AttemptOutcome` per tool-attempt set; `hasNextAttempt` corresponds to the
remaining outcome list being nonempty.  On success the loop breaks and the
trailing `reasoning_summary_done` is yielded iff `emittedAnySummary`; on
failure the next attempt runs only when there is a next tool set, no content
was emitted this attempt, and the error matches the compatibility heuristic;
otherwise the error is re-thrown. -/
def runAttempts : GState → List AttemptOutcome → List NEvent × GRes
  | _, [] => ([], GRes.exhausted)
  | st, a :: rest =>
    let r := processChunks st a.chunks
    match a.error with
    | none =>
      (r.1 ++ (if r.2.1.emittedAnySummary then [NEvent.reasoningDone] else []),
       GRes.completed)
    | some e =>
      if (!rest.isEmpty) && !r.2.2 && isGeminiToolCompatibilityError e then
        let r' := runAttempts r.2.1 rest
        (r.1 ++ r'.1, r'.2)
      else (r.1, GRes.thrown e)

/-- A full `streamGeminiResponse` invocation: fresh state, then the attempt
loop. -/
def streamGeminiRun (outcomes : List AttemptOutcome) : List NEvent × GRes :=
  runAttempts ⟨false, [], []⟩ outcomes

example :
    streamGeminiRun [⟨[⟨[⟨toL "A", false⟩], []⟩, ⟨[⟨toL "AB", false⟩], []⟩], none⟩] =
      ([NEvent.answerDelta (some (toL "A")), NEvent.answerDelta (some (toL "B"))],
       GRes.completed) := by decide

example :
    streamGeminiRun [⟨[], some (toL "tool googleSearch is invalid")⟩, ⟨[⟨[⟨toL "A", false⟩], []⟩], none⟩] =
      ([NEvent.answerDelta (some (toL "A"))], GRes.completed) := by decide

/-- Claim C1: in `streamGeminiResponse`, once any content (answer or thought
part, or chunk-level text fallback) has been emitted during the current
attempt, a subsequent error in that same attempt is re-thrown as a terminal
failure — no fallback to the next tool set happens, regardless of the
remaining tool sets and of whether the error matches the tool-incompatibility
heuristic. -/
theorem gemini_no_fallback_after_content (st : GState) (a : AttemptOutcome)
    (rest : List AttemptOutcome) (e : Str)
    (herr : a.error = some e)
    (hcontent : (processChunks st a.chunks).2.2 = true) :
    runAttempts st (a :: rest) = ((processChunks st a.chunks).1, GRes.thrown e) := by
  unfold runAttempts
  rw [herr]
  simp [hcontent]

/-- Witness for `gemini_no_fallback_after_content`: an attempt that emits the
answer chunk `"A"` and then throws an error that does match the tool
heuristic, while a further tool set is still available, terminates with that
error instead of retrying. -/
theorem gemini_no_fallback_after_content_witness :
    isGeminiToolCompatibilityError (toL "tools unsupported") = true ∧
    runAttempts ⟨false, [], []⟩
        [⟨[⟨[⟨toL "A", false⟩], []⟩], some (toL "tools unsupported")⟩, ⟨[], none⟩] =
      ([NEvent.answerDelta (some (toL "A"))], GRes.thrown (toL "tools unsupported")) := by
  constructor
  · decide
  · rw [gemini_no_fallback_after_content ⟨false, [], []⟩
      ⟨[⟨[⟨toL "A", false⟩], []⟩], some (toL "tools unsupported")⟩
      [⟨[], none⟩] (toL "tools unsupported") rfl (by decide)]
    decide

/-! ## Reasoning-event discipline of the Gemini adapter -/

/-- Is a normalized event the `reasoning_summary_done` signal? -/
def isRDone : NEvent → Bool
  | NEvent.reasoningDone => true
  | _ => false

/-- Is a normalized event a `reasoning_summary_delta`? -/
def isRDelta : NEvent → Bool
  | NEvent.reasoningDelta _ => true
  | _ => false

/-- Number of `reasoning_summary_done` events in a list. -/
def dcount (l : List NEvent) : ℕ := l.countP isRDone

theorem dcount_append (a b : List NEvent) : dcount (a ++ b) = dcount a + dcount b := by
  simp [dcount, List.countP_append]

theorem answerEvs_dcount (d : Str) : dcount (answerEvs d) = 0 := by
  unfold answerEvs
  split <;> simp [dcount, isRDone]

theorem reasoningEvs_dcount (d : Str) : dcount (reasoningEvs d) = 0 := by
  unfold reasoningEvs
  split <;> simp [dcount, isRDone]

theorem answerEvs_any_isRDelta (d : Str) : (answerEvs d).any isRDelta = false := by
  unfold answerEvs
  split <;> simp [isRDelta]

theorem summaryFlagUpd_eq (d : Str) (b : Bool) :
    summaryFlagUpd d b = (b || (reasoningEvs d).any isRDelta) := by
  unfold summaryFlagUpd reasoningEvs
  split <;> simp [isRDelta]

/-- The parts loop never yields `reasoning_summary_done`. -/
theorem processParts_dcount (st : GState) (ps : List GPart) :
    dcount (processParts st ps).1 = 0 := by
  induction ps generalizing st with
  | nil => rfl
  | cons p ps ih =>
    simp only [processParts]
    split_ifs with h1 h2
    · exact ih st
    · simp [dcount_append, reasoningEvs_dcount, ih]
    · simp [dcount_append, answerEvs_dcount, ih]

/-- Processing a chunk never yields `reasoning_summary_done`. -/
theorem processChunk_dcount (st : GState) (c : GChunk) :
    dcount (processChunk st c).1 = 0 := by
  simp only [processChunk]
  split_ifs with h1 h2
  · exact processParts_dcount st c.parts
  · exact processParts_dcount st c.parts
  · simp [dcount_append, answerEvs_dcount, processParts_dcount]

/-- Processing an attempt's chunks never yields `reasoning_summary_done`. -/
theorem processChunks_dcount (st : GState) (cs : List GChunk) :
    dcount (processChunks st cs).1 = 0 := by
  induction cs generalizing st with
  | nil => rfl
  | cons c cs ih =>
    simp only [processChunks]
    simp [dcount_append, processChunk_dcount, ih]

/-- The `emittedAnySummary` flag after the parts loop is the old flag or-ed
with whether a reasoning delta was yielded. -/
theorem processParts_summary_flag (st : GState) (ps : List GPart) :
    (processParts st ps).2.1.emittedAnySummary =
      (st.emittedAnySummary || (processParts st ps).1.any isRDelta) := by
  induction ps generalizing st with
  | nil => simp [processParts]
  | cons p ps ih =>
    simp only [processParts]
    split_ifs with h1 h2
    · exact ih st
    · simp only [List.any_append, ih, summaryFlagUpd_eq]
      cases st.emittedAnySummary <;> cases (reasoningEvs (getDeltaAndNextText p.text st.prevThought).1).any isRDelta <;> simp
    · simp only [List.any_append, ih, answerEvs_any_isRDelta]
      simp

/-- Same flag equation for one chunk (the text fallback only yields answer
deltas and leaves the flag unchanged). -/
theorem processChunk_summary_flag (st : GState) (c : GChunk) :
    (processChunk st c).2.1.emittedAnySummary =
      (st.emittedAnySummary || (processChunk st c).1.any isRDelta) := by
  simp only [processChunk]
  split_ifs with h1 h2
  · exact processParts_summary_flag st c.parts
  · exact processParts_summary_flag st c.parts
  · simp only [List.any_append, answerEvs_any_isRDelta]
    rw [processParts_summary_flag st c.parts]
    simp

/-- Same flag equation across all chunks of an attempt. -/
theorem processChunks_summary_flag (st : GState) (cs : List GChunk) :
    (processChunks st cs).2.1.emittedAnySummary =
      (st.emittedAnySummary || (processChunks st cs).1.any isRDelta) := by
  induction cs generalizing st with
  | nil => simp [processChunks]
  | cons c cs ih =>
    simp only [processChunks, List.any_append]
    rw [ih, processChunk_summary_flag]
    simp [Bool.or_assoc]

/-- Reasoning-done discipline of the Gemini attempt loop: at most one
`reasoning_summary_done` is yielded, and if the invocation yields no
reasoning delta (and the flag starts false) it yields no
`reasoning_summary_done` either. -/
theorem runAttempts_reasoning_discipline (outcomes : List AttemptOutcome)
    (st : GState) :
    dcount (runAttempts st outcomes).1 ≤ 1 ∧
    (st.emittedAnySummary = false →
      (runAttempts st outcomes).1.any isRDelta = false →
      dcount (runAttempts st outcomes).1 = 0) := by
  induction outcomes generalizing st with
  | nil => simp [runAttempts, dcount]
  | cons a rest ih =>
    cases herr : a.error with
    | none =>
      constructor
      · simp only [runAttempts, herr, dcount_append, processChunks_dcount, Nat.zero_add]
        split_ifs <;> simp [dcount, isRDone]
      · intro hflag hany
        simp only [runAttempts, herr, List.any_append, Bool.or_eq_false_iff] at hany
        have hflag' := processChunks_summary_flag st a.chunks
        rw [hflag, hany.1] at hflag'
        simp only [Bool.false_or] at hflag'
        simp [runAttempts, herr, dcount_append, processChunks_dcount, hflag']
    | some e =>
      by_cases hretry :
          ((!rest.isEmpty) && !(processChunks st a.chunks).2.2 &&
            isGeminiToolCompatibilityError e) = true
      · constructor
        · simp only [runAttempts, herr, hretry, if_true, dcount_append,
            processChunks_dcount, Nat.zero_add]
          exact (ih _).1
        · intro hflag hany
          simp only [runAttempts, herr, hretry, if_true, List.any_append,
            Bool.or_eq_false_iff] at hany
          have hflag' := processChunks_summary_flag st a.chunks
          rw [hflag, hany.1] at hflag'
          simp only [Bool.false_or] at hflag'
          simp only [runAttempts, herr, hretry, if_true, dcount_append,
            processChunks_dcount, Nat.zero_add]
          exact (ih _).2 hflag' hany.2
      · rw [Bool.not_eq_true] at hretry
        constructor
        · simp [runAttempts, herr, hretry, processChunks_dcount]
        · intro _ _
          simp [runAttempts, herr, hretry, processChunks_dcount]

/-! ## `src/lib/openai.ts` : `streamOpenAIResponse` (Responses protocol)

The SSE parse loop (lines 296-396) is embedded as a pure function over the
list of successfully JSON-parsed `data:` objects; malformed lines are logged
and skipped by the code, so they simply do not appear in the list.  Each
parsed object is represented by the fields the loop reads. -/

/-- One entry of a `reasoning` item's `summary` array, as read by
`extractReasoningSummaryText`: `text` when it is a string, the
`type === 'summary_text'` flag, and `summary_text` when it is a string. -/
structure SummaryEntry where
  text : Option Str
  isSummaryText : Bool
  summaryText : Option Str
deriving DecidableEq

/-- The parts pushed for one summary entry (lines 177-190): a non-blank
`text` wins; otherwise a `summary_text` entry contributes its trimmed
`summary_text` when non-blank. -/
def summaryEntryParts (e : SummaryEntry) : List Str :=
  match e.text with
  | some t =>
    if trimStr t ≠ [] then [t]
    else
      match e.isSummaryText, e.summaryText with
      | true, some u => if trimStr u = [] then [] else [trimStr u]
      | _, _ => []
  | none =>
    match e.isSummaryText, e.summaryText with
    | true, some u => if trimStr u = [] then [] else [trimStr u]
    | _, _ => []

/-- Embedding of `extractReasoningSummaryText` (lines 173-193): join the
collected parts with a newline and trim. -/
def extractReasoningSummaryText (entries : List SummaryEntry) : Str :=
  trimStr (List.intercalate [Char.ofNat 10] (entries.flatMap summaryEntryParts))

/-- One parsed SSE `data:` object, restricted to the fields the loop reads.
`chatContent` is `data.choices?.[0]?.delta?.content` (when a string),
`dtype` is `data.type` (`[]` when absent), `delta`/`partText`/`text` are the
corresponding fields when they are strings, `itemType`/`itemSummary` come
from `data.item`, and `respSummary` is the `summary` of the first
`type === 'reasoning'` item of `data.response.output` (`none` when there is
no such item). -/
structure OAIData where
  chatContent : Option Str
  dtype : Str
  delta : Option Str
  partText : Option Str
  text : Option Str
  itemType : Str
  itemSummary : List SummaryEntry
  respSummary : Option (List SummaryEntry)
deriving DecidableEq

/-- Per-invocation reasoning-summary state of the Responses parse loop:
`summaryBuffer` and `summaryDoneEmitted` (lines 293-294). -/
structure OAIState where
  summaryBuffer : Str
  summaryDoneEmitted : Bool
deriving DecidableEq

/-- The `if (!summaryDoneEmitted) { summaryDoneEmitted = true; yield done }`
pattern shared by three of the blocks. -/
def oaiEmitDone (st : OAIState) : List NEvent × OAIState :=
  if st.summaryDoneEmitted then ([], st)
  else ([NEvent.reasoningDone], ⟨st.summaryBuffer, true⟩)

/-- Block for `response.reasoning_summary_text.delta` (lines 322-329). -/
def oaiBlockSummaryDelta (st : OAIState) (delta : Option Str) :
    List NEvent × OAIState :=
  match delta with
  | some s =>
    if s = [] then ([], st)
    else ([NEvent.reasoningDelta (some s)], ⟨st.summaryBuffer ++ s, st.summaryDoneEmitted⟩)
  | none => ([], st)

/-- Block for `response.reasoning_summary_part.done` (lines 331-344): a
non-empty `part.text` seeds the buffer when it is still blank, then the done
signal is emitted once. -/
def oaiBlockPartDone (st : OAIState) (partText : Option Str) :
    List NEvent × OAIState :=
  match partText with
  | some t =>
    if t = [] then ([], st)
    else
      let fst :=
        if trimStr st.summaryBuffer = [] then
          ([NEvent.reasoningDelta (some t)], (⟨t, st.summaryDoneEmitted⟩ : OAIState))
        else ([], st)
      let snd := oaiEmitDone fst.2
      (fst.1 ++ snd.1, snd.2)
  | none => ([], st)

/-- Block for `response.reasoning_summary_text.done` (lines 346-358): note
that `data.text` only has to be a string — it may be empty, in which case no
delta is seeded but the done signal is still emitted. -/
def oaiBlockTextDone (st : OAIState) (text : Option Str) :
    List NEvent × OAIState :=
  match text with
  | some t =>
    let fst :=
      if trimStr st.summaryBuffer = [] ∧ trimStr t ≠ [] then
        ([NEvent.reasoningDelta (some t)], (⟨t, st.summaryDoneEmitted⟩ : OAIState))
      else ([], st)
    let snd := oaiEmitDone fst.2
    (fst.1 ++ snd.1, snd.2)
  | none => ([], st)

/-- Block for `response.output_item.done` with a `reasoning` item
(lines 360-370): like the text-done block but scraping the item summary; the
done signal is again emitted unconditionally (once). -/
def oaiBlockItemDone (st : OAIState) (summary : List SummaryEntry) :
    List NEvent × OAIState :=
  let s := extractReasoningSummaryText summary
  let fst :=
    if trimStr st.summaryBuffer = [] ∧ s ≠ [] then
      ([NEvent.reasoningDelta (some s)], (⟨s, st.summaryDoneEmitted⟩ : OAIState))
    else ([], st)
  let snd := oaiEmitDone fst.2
  (fst.1 ++ snd.1, snd.2)

/-- Block for `response.completed` (lines 372-390): runs only when the done
signal has not been emitted yet; scrapes the final response payload and emits
the done signal only if the buffer is non-blank afterwards. -/
def oaiBlockCompleted (st : OAIState) (respSummary : Option (List SummaryEntry)) :
    List NEvent × OAIState :=
  if st.summaryDoneEmitted then ([], st)
  else
    let s := match respSummary with
      | some entries => extractReasoningSummaryText entries
      | none => []
    let fst :=
      if trimStr st.summaryBuffer = [] ∧ s ≠ [] then
        ([NEvent.reasoningDelta (some s)], (⟨s, st.summaryDoneEmitted⟩ : OAIState))
      else ([], st)
    if trimStr fst.2.summaryBuffer = [] then (fst.1, fst.2)
    else (fst.1 ++ [NEvent.reasoningDone], ⟨fst.2.summaryBuffer, true⟩)

/-- Process one parsed `data:` object (lines 311-390): the chat-completions
content path runs first, then the single matching Responses-API block. -/
def processOAIData (st : OAIState) (d : OAIData) : List NEvent × OAIState :=
  let chatEvs : List NEvent :=
    match d.chatContent with
    | some s => if s = [] then [] else [NEvent.answerDelta (some s)]
    | none => []
  let answerEvs : List NEvent :=
    if d.dtype = toL "response.output_text.delta" then
      match d.delta with
      | some s => if s = [] then [] else [NEvent.answerDelta (some s)]
      | none => []
    else []
  let r : List NEvent × OAIState :=
    if d.dtype = toL "response.reasoning_summary_text.delta" then
      oaiBlockSummaryDelta st d.delta
    else if d.dtype = toL "response.reasoning_summary_part.done" then
      oaiBlockPartDone st d.partText
    else if d.dtype = toL "response.reasoning_summary_text.done" then
      oaiBlockTextDone st d.text
    else if d.dtype = toL "response.output_item.done" then
      (if d.itemType = toL "reasoning" then oaiBlockItemDone st d.itemSummary
       else ([], st))
    else if d.dtype = toL "response.completed" then
      oaiBlockCompleted st d.respSummary
    else ([], st)
  (chatEvs ++ answerEvs ++ r.1, r.2)

/-- The Responses-protocol parse loop over all parsed `data:` objects. -/
def runOAIFrom : OAIState → List OAIData → List NEvent × OAIState
  | st, [] => ([], st)
  | st, d :: ds =>
    let r := processOAIData st d
    let rest := runOAIFrom r.2 ds
    (r.1 ++ rest.1, rest.2)

/-- The normalized events yielded by one `streamOpenAIResponse` invocation on
the Responses protocol, given the parsed stream objects. -/
def runOAI (ds : List OAIData) : List NEvent :=
  (runOAIFrom ⟨[], false⟩ ds).1

example :
    runOAI [⟨none, toL "response.output_text.delta", some (toL "hi"), none, none, [], [], none⟩] =
      [NEvent.answerDelta (some (toL "hi"))] := by decide

example :
    runOAI [⟨none, toL "response.reasoning_summary_text.delta", some (toL "r"), none, none, [], [], none⟩,
            ⟨none, toL "response.reasoning_summary_text.done", none, none, some (toL "r"), [], [], none⟩] =
      [NEvent.reasoningDelta (some (toL "r")), NEvent.reasoningDone] := by decide

/-! ## Reasoning-event discipline of the OpenAI adapter -/

/-- Bool-to-count helper for the done-flag accounting. -/
def b2n (b : Bool) : ℕ := if b then 1 else 0

theorem b2n_le_one (b : Bool) : b2n b ≤ 1 := by cases b <;> simp [b2n]

/-- A reasoning delta carries a present, non-empty content string (other
events are unconstrained). -/
def rdeltaOk : NEvent → Bool
  | NEvent.reasoningDelta (some s) => !s.isEmpty
  | NEvent.reasoningDelta none => false
  | _ => true

theorem oaiEmitDone_dcount (st : OAIState) :
    dcount (oaiEmitDone st).1 + b2n st.summaryDoneEmitted =
      b2n (oaiEmitDone st).2.summaryDoneEmitted ∧
    (oaiEmitDone st).1.all rdeltaOk = true := by
  obtain ⟨buf, done⟩ := st
  cases done <;> simp [oaiEmitDone, dcount, b2n, isRDone, rdeltaOk, List.countP_cons]

theorem oaiBlockSummaryDelta_disc (st : OAIState) (delta : Option Str) :
    (dcount (oaiBlockSummaryDelta st delta).1 + b2n st.summaryDoneEmitted ≤
      b2n (oaiBlockSummaryDelta st delta).2.summaryDoneEmitted) ∧
    (oaiBlockSummaryDelta st delta).1.all rdeltaOk = true := by
  cases delta with
  | none => simp [oaiBlockSummaryDelta, dcount]
  | some s =>
    simp only [oaiBlockSummaryDelta]
    split_ifs with h
    · simp [dcount]
    · simp [dcount, b2n, isRDone, rdeltaOk, List.countP_cons, h]

theorem oaiBlockPartDone_disc (st : OAIState) (pt : Option Str) :
    (dcount (oaiBlockPartDone st pt).1 + b2n st.summaryDoneEmitted ≤
      b2n (oaiBlockPartDone st pt).2.summaryDoneEmitted) ∧
    (oaiBlockPartDone st pt).1.all rdeltaOk = true := by
  cases pt with
  | none => simp [oaiBlockPartDone, dcount]
  | some t =>
    obtain ⟨buf, done⟩ := st
    simp only [oaiBlockPartDone]
    split_ifs with h1 h2 <;>
      cases done <;>
        simp [oaiEmitDone, dcount, b2n, isRDone, rdeltaOk, List.countP_cons, h1]

theorem oaiBlockTextDone_disc (st : OAIState) (t? : Option Str) :
    (dcount (oaiBlockTextDone st t?).1 + b2n st.summaryDoneEmitted ≤
      b2n (oaiBlockTextDone st t?).2.summaryDoneEmitted) ∧
    (oaiBlockTextDone st t?).1.all rdeltaOk = true := by
  cases t? with
  | none => simp [oaiBlockTextDone, dcount]
  | some t =>
    obtain ⟨buf, done⟩ := st
    simp only [oaiBlockTextDone]
    split_ifs with h1 <;>
      cases done <;>
        simp [oaiEmitDone, dcount, b2n, isRDone, rdeltaOk, List.countP_cons] <;>
          first
            | rfl
            | (intro hemp; exact absurd (by rw [hemp]; rfl) h1.2)

theorem oaiBlockItemDone_disc (st : OAIState) (summary : List SummaryEntry) :
    (dcount (oaiBlockItemDone st summary).1 + b2n st.summaryDoneEmitted ≤
      b2n (oaiBlockItemDone st summary).2.summaryDoneEmitted) ∧
    (oaiBlockItemDone st summary).1.all rdeltaOk = true := by
  obtain ⟨buf, done⟩ := st
  simp only [oaiBlockItemDone]
  split_ifs with h1 <;>
    cases done <;>
      simp [oaiEmitDone, dcount, b2n, isRDone, rdeltaOk, List.countP_cons] <;>
        first
          | rfl
          | (intro hemp; exact absurd hemp h1.2)

theorem oaiBlockCompleted_disc (st : OAIState) (respSummary : Option (List SummaryEntry)) :
    (dcount (oaiBlockCompleted st respSummary).1 + b2n st.summaryDoneEmitted ≤
      b2n (oaiBlockCompleted st respSummary).2.summaryDoneEmitted) ∧
    (oaiBlockCompleted st respSummary).1.all rdeltaOk = true := by
  obtain ⟨buf, done⟩ := st
  cases done with
  | true => simp [oaiBlockCompleted, dcount, b2n]
  | false =>
    simp only [oaiBlockCompleted]
    split_ifs with h1 h2 h3 <;>
      simp_all [dcount, b2n, isRDone, rdeltaOk, List.countP_cons]

theorem processOAIData_disc (st : OAIState) (d : OAIData) :
    (dcount (processOAIData st d).1 + b2n st.summaryDoneEmitted ≤
      b2n (processOAIData st d).2.summaryDoneEmitted) ∧
    (processOAIData st d).1.all rdeltaOk = true := by
  have hchat : ∀ c : Option Str,
      dcount (match c with
        | some s => if s = [] then [] else [NEvent.answerDelta (some s)]
        | none => ([] : List NEvent)) = 0 ∧
      (match c with
        | some s => if s = [] then [] else [NEvent.answerDelta (some s)]
        | none => ([] : List NEvent)).all rdeltaOk = true := by
    intro c
    cases c with
    | none => simp [dcount]
    | some s =>
      by_cases h : s = [] <;> simp [h, dcount, isRDone, rdeltaOk, List.countP_cons]
  simp only [processOAIData, dcount_append, List.all_append]
  constructor
  · rw [(hchat d.chatContent).1]
    have hans : dcount (if d.dtype = toL "response.output_text.delta" then
        match d.delta with
        | some s => if s = [] then [] else [NEvent.answerDelta (some s)]
        | none => ([] : List NEvent)
      else []) = 0 := by
      split_ifs with h
      · exact (hchat d.delta).1
      · simp [dcount]
    rw [hans]
    simp only [Nat.zero_add]
    split_ifs with h1 h2 h3 h4 h5 h6
    · exact (oaiBlockSummaryDelta_disc st d.delta).1
    · exact (oaiBlockPartDone_disc st d.partText).1
    · exact (oaiBlockTextDone_disc st d.text).1
    · exact (oaiBlockItemDone_disc st d.itemSummary).1
    · simp [dcount, b2n]
    · exact (oaiBlockCompleted_disc st d.respSummary).1
    · simp [dcount, b2n]
  · rw [Bool.and_eq_true, Bool.and_eq_true]
    refine ⟨⟨(hchat d.chatContent).2, ?_⟩, ?_⟩
    · split_ifs with h
      · exact (hchat d.delta).2
      · rfl
    · split_ifs with h1 h2 h3 h4 h5 h6
      · exact (oaiBlockSummaryDelta_disc st d.delta).2
      · exact (oaiBlockPartDone_disc st d.partText).2
      · exact (oaiBlockTextDone_disc st d.text).2
      · exact (oaiBlockItemDone_disc st d.itemSummary).2
      · rfl
      · exact (oaiBlockCompleted_disc st d.respSummary).2
      · rfl

theorem runOAIFrom_disc (ds : List OAIData) (st : OAIState) :
    (dcount (runOAIFrom st ds).1 + b2n st.summaryDoneEmitted ≤
      b2n ((runOAIFrom st ds).2.summaryDoneEmitted)) ∧
    (runOAIFrom st ds).1.all rdeltaOk = true := by
  induction ds generalizing st with
  | nil => simp [runOAIFrom, dcount]
  | cons d ds ih =>
    simp only [runOAIFrom, dcount_append, List.all_append, Bool.and_eq_true]
    have hstep := processOAIData_disc st d
    have hrest := ih (processOAIData st d).2
    exact ⟨by omega, hstep.2, hrest.2⟩

/-- Claim C5 (as stated) is false on the code for `streamOpenAIResponse`: a
`response.reasoning_summary_text.done` object whose `text` is the empty
string yields a `reasoning_summary_done` event even though no reasoning
content was ever produced (no reasoning delta, empty text). -/
theorem oai_bare_reasoning_done_counterexample :
    (runOAI [⟨none, toL "response.reasoning_summary_text.done", none, none,
        some [], [], [], none⟩]).any isRDelta = false ∧
    runOAI [⟨none, toL "response.reasoning_summary_text.done", none, none,
        some [], [], [], none⟩] = [NEvent.reasoningDone] := by decide

/-- Claim C5 (amended): every adapter invocation yields at most one
`reasoning_summary_done`; for `streamGeminiResponse`, if no reasoning delta is
ever yielded then no reasoning event (delta or done) is yielded at all.  (For
`streamOpenAIResponse` the latter fails: a summary-done wire event with empty
text yields a bare `reasoning_summary_done`, see the counterexample.) -/
theorem adapters_reasoning_done_discipline :
    (∀ ds : List OAIData, dcount (runOAI ds) ≤ 1) ∧
    (∀ outcomes : List AttemptOutcome,
      dcount (streamGeminiRun outcomes).1 ≤ 1 ∧
      ((streamGeminiRun outcomes).1.any isRDelta = false →
        (streamGeminiRun outcomes).1.all (fun e => !(isRDelta e || isRDone e)) = true)) := by
  constructor
  · intro ds
    have h := runOAIFrom_disc ds ⟨[], false⟩
    have h1 := h.1
    have hle := b2n_le_one ((runOAIFrom ⟨[], false⟩ ds).2.summaryDoneEmitted)
    simp only [b2n, if_false] at h1
    simp only [runOAI]
    omega
  · intro outcomes
    have h := runAttempts_reasoning_discipline outcomes ⟨false, [], []⟩
    refine ⟨h.1, ?_⟩
    intro hany
    have hz := h.2 rfl hany
    rw [List.all_eq_true]
    intro e he
    have hdelta : isRDelta e = false := by
      rw [List.any_eq_false] at hany
      simpa using hany e he
    have hdone : isRDone e = false := by
      have := List.countP_eq_zero.mp hz e he
      simpa using this
    simp [hdelta, hdone]

/-- Witness for `adapters_reasoning_done_discipline` at concrete inputs: an
OpenAI stream with one reasoning delta and done, and a Gemini stream with
answer content only. -/
theorem adapters_reasoning_done_discipline_witness :
    dcount (runOAI [⟨none, toL "response.reasoning_summary_text.delta",
        some (toL "r"), none, none, [], [], none⟩]) ≤ 1 ∧
    (streamGeminiRun [⟨[⟨[⟨toL "A", false⟩], []⟩], none⟩]).1.all
      (fun e => !(isRDelta e || isRDone e)) = true := by
  constructor
  · exact adapters_reasoning_done_discipline.1
      [⟨none, toL "response.reasoning_summary_text.delta", some (toL "r"),
        none, none, [], [], none⟩]
  · exact (adapters_reasoning_done_discipline.2
      [⟨[⟨[⟨toL "A", false⟩], []⟩], none⟩]).2 (by decide)

/-! ## `src/lib/openai.ts` : tool sets and the 4xx web-only retry
(lines 26-115 and 257-286)

The environment-derived configuration is modelled as an explicit record (the
code reads it from `process.env` once per call), and the two `fetch` results
are modelled by `Option (status, body)`: `none` means `response.ok`. -/

/-- `search_context_size` values. -/
inductive WSize where
  | low
  | medium
  | high
deriving DecidableEq

/-- Serialization of a `search_context_size`. -/
def wsizeStr : WSize → Str
  | WSize.low => toL "low"
  | WSize.medium => toL "medium"
  | WSize.high => toL "high"

/-- The `OpenAIResponsesTool` union. -/
inductive OTool where
  | webSearch
  | webSearchPreview (size : WSize)
  | codeInterpreter
deriving DecidableEq

/-- The per-tool signature `` `${tool.type}:${JSON.stringify(tool)}` `` used by
`areToolSetsEquivalent` (lines 101-106). -/
def toolSig : OTool → Str
  | OTool.webSearch => toL "web_search:\x7b\"type\":\"web_search\"\x7d"
  | OTool.webSearchPreview size =>
    toL "web_search_preview:\x7b\"type\":\"web_search_preview\",\"search_context_size\":\"" ++
      wsizeStr size ++ toL "\"\x7d"
  | OTool.codeInterpreter =>
    toL "code_interpreter:\x7b\"type\":\"code_interpreter\",\"container\":\x7b\"type\":\"auto\"\x7d\x7d"

/-- Lexicographic string comparison (JS default array sort on strings). -/
def strLe : Str → Str → Bool
  | [], _ => true
  | _ :: _, [] => false
  | a :: as, b :: bs => if a = b then strLe as bs else decide (a < b)

/-- Insertion step of the signature sort. -/
def insertSorted (x : Str) : List Str → List Str
  | [] => [x]
  | y :: ys => if strLe x y then x :: y :: ys else y :: insertSorted x ys

/-- Sorting the signature list (`.sort()`); any sorting algorithm yields the
same sorted permutation, so insertion sort models the JS sort faithfully for
the equality test the code performs. -/
def sortStrs : List Str → List Str
  | [] => []
  | x :: xs => insertSorted x (sortStrs xs)

/-- `tools.map(sig).sort().join('|')`. -/
def toolSetSignature (tools : List OTool) : Str :=
  List.intercalate [Char.ofNat 124] (sortStrs (tools.map toolSig))

/-- Embedding of `areToolSetsEquivalent` (lines 101-106). -/
def areToolSetsEquivalent (a b : List OTool) : Bool :=
  decide (toolSetSignature a = toolSetSignature b)

/-- Tool-name keyword heuristic of `isToolCompatibilityError` (line 112). -/
def hasToolHintOAI (m : Str) : Bool :=
  [toL "tool", toL "tools", toL "web_search", toL "web_search_preview",
   toL "code_interpreter"].any fun pat => containsStr m pat

/-- Incompatibility keyword heuristic of `isToolCompatibilityError`
(line 113). -/
def hasCompatHintOAI (m : Str) : Bool :=
  [toL "unsupported", toL "not supported", toL "invalid", toL "unknown",
   toL "unrecognized", toL "not allowed", toL "not available"].any
    fun pat => containsStr m pat

/-- Embedding of `isToolCompatibilityError` from `src/lib/openai.ts`
(lines 108-115). -/
def isToolCompatibilityErrorOAI (status : ℕ) (body : Str) : Bool :=
  if status < 400 ∨ 500 ≤ status then false
  else hasToolHintOAI (lowerStr body) && hasCompatHintOAI (lowerStr body)

/-- Environment configuration read by the tool builders: the
`OPENAI_FORCE_DISABLE_TOOLS`, `OPENAI_ENABLE_WEB_SEARCH`,
`OPENAI_WEB_SEARCH_TOOL_TYPE` (preview mode), resolved
`OPENAI_WEB_SEARCH_CONTEXT_SIZE` (default `medium`), and
`OPENAI_ENABLE_CODE_INTERPRETER` settings. -/
structure OAIEnv where
  forceDisableTools : Bool
  enableWebSearch : Bool
  webSearchPreviewMode : Bool
  webSearchContextSize : WSize
  enableCodeInterpreter : Bool
deriving DecidableEq

/-- Embedding of `resolveWebSearchTool` (lines 48-69). -/
def resolveWebSearchTool (env : OAIEnv) : Option OTool :=
  if !env.enableWebSearch then none
  else if env.webSearchPreviewMode then
    some (OTool.webSearchPreview env.webSearchContextSize)
  else some OTool.webSearch

/-- Embedding of `shouldEnableCodeInterpreter` (lines 71-81). -/
def shouldEnableCodeInterpreter (env : OAIEnv) (requestedModel resolvedModelName : Str) :
    Bool :=
  if !env.enableCodeInterpreter then false
  else
    let requested := lowerStr requestedModel
    if requested = toL "gpt-5.2-pro" then false
    else if requested = toL "gpt-5.2" ∨ requested = toL "gpt-5.2-high" then true
    else
      let resolved := lowerStr resolvedModelName
      containsStr resolved (toL "gpt-5.2") && !containsStr resolved (toL "gpt-5.2-pro")

/-- Embedding of `buildOpenAITools` (lines 83-99). -/
def buildOpenAITools (env : OAIEnv) (resolvedModelName requestedModel : Str)
    (forceWebOnly : Bool) : List OTool :=
  if env.forceDisableTools then []
  else
    (match resolveWebSearchTool env with
     | some t => [t]
     | none => []) ++
    (if !forceWebOnly && shouldEnableCodeInterpreter env requestedModel resolvedModelName then
      [OTool.codeInterpreter]
     else [])

/-- The retry decision of `streamOpenAIResponse` on a failed initial request
(lines 265-270): tool-compatibility error AND non-empty web-only tool set AND
the web-only set not equivalent to the initial set. -/
def openAIFallbackDecision (env : OAIEnv) (resolved requested : Str)
    (status : ℕ) (body : Str) : Bool :=
  isToolCompatibilityErrorOAI status body &&
    decide (0 < (buildOpenAITools env resolved requested true).length) &&
    !areToolSetsEquivalent (buildOpenAITools env resolved requested false)
      (buildOpenAITools env resolved requested true)

/-- How the request phase of a Responses-protocol invocation ends: streaming
with some tool set (after 0 or 1 retries), or a thrown terminal error. -/
inductive OAIStartResult where
  | streaming (tools : List OTool) (retried : Bool)
  | failed (status : ℕ) (body : Str) (afterRetry : Bool)
deriving DecidableEq

/-- Embedding of the request/retry phase of `streamOpenAIResponse`
(lines 257-286): `firstError`/`retryError` are `none` when the corresponding
`fetch` response is ok, else the status and error body. -/
def openAIStart (env : OAIEnv) (resolved requested : Str)
    (firstError retryError : Option (ℕ × Str)) : OAIStartResult :=
  match firstError with
  | none => OAIStartResult.streaming (buildOpenAITools env resolved requested false) false
  | some (s, b) =>
    if openAIFallbackDecision env resolved requested s b then
      match retryError with
      | none => OAIStartResult.streaming (buildOpenAITools env resolved requested true) true
      | some (s2, b2) => OAIStartResult.failed s2 b2 true
    else OAIStartResult.failed s b false

/-- Claim C6: a failed initial Responses request is retried (once, with the
web-search-only tool set) exactly when the status is 4xx, the body matches
both keyword heuristics, and the web-only tool set is non-empty and not
equivalent to the initial one; any other failure, and any failure of the
retry, is terminal. -/
theorem openai_retry_policy (env : OAIEnv) (resolved requested : Str)
    (s : ℕ) (b : Str) (retryError : Option (ℕ × Str)) :
    (openAIFallbackDecision env resolved requested s b = true ↔
      (400 ≤ s ∧ s < 500 ∧
       hasToolHintOAI (lowerStr b) = true ∧ hasCompatHintOAI (lowerStr b) = true ∧
       buildOpenAITools env resolved requested true ≠ [] ∧
       areToolSetsEquivalent (buildOpenAITools env resolved requested false)
         (buildOpenAITools env resolved requested true) = false)) ∧
    (openAIFallbackDecision env resolved requested s b = false →
      openAIStart env resolved requested (some (s, b)) retryError =
        OAIStartResult.failed s b false) ∧
    (openAIFallbackDecision env resolved requested s b = true → retryError = none →
      openAIStart env resolved requested (some (s, b)) none =
        OAIStartResult.streaming (buildOpenAITools env resolved requested true) true) ∧
    (∀ s2 b2, openAIFallbackDecision env resolved requested s b = true →
      retryError = some (s2, b2) →
      openAIStart env resolved requested (some (s, b)) retryError =
        OAIStartResult.failed s2 b2 true) := by
  refine ⟨?_, ?_, ?_, ?_⟩
  · unfold openAIFallbackDecision isToolCompatibilityErrorOAI
    split_ifs with hs
    · constructor
      · intro h
        simp at h
      · rintro ⟨h1, h2, -⟩
        omega
    · push_neg at hs
      simp only [Bool.and_eq_true, Bool.not_eq_true', decide_eq_true_iff,
        List.length_pos]
      constructor
      · rintro ⟨⟨⟨ht, hc⟩, hlen⟩, hneq⟩
        exact ⟨hs.1, hs.2, ht, hc, hlen, hneq⟩
      · rintro ⟨-, -, ht, hc, hlen, hneq⟩
        exact ⟨⟨⟨ht, hc⟩, hlen⟩, hneq⟩
  · intro hdec
    simp [openAIStart, hdec]
  · intro hdec _
    simp [openAIStart, hdec]
  · intro s2 b2 hdec hretry
    subst hretry
    simp [openAIStart, hdec]

/-- Witness for `openai_retry_policy`: with web search and code interpreter
enabled for `gpt-5.2`, a 400 response whose body is `"tools unsupported"`
triggers exactly one retry with the web-search-only tool set. -/
theorem openai_retry_policy_witness :
    openAIStart ⟨false, true, false, WSize.medium, true⟩ (toL "gpt-5.2")
        (toL "gpt-5.2") (some (400, toL "tools unsupported")) none =
      OAIStartResult.streaming [OTool.webSearch] true := by
  rw [(openai_retry_policy ⟨false, true, false, WSize.medium, true⟩ (toL "gpt-5.2")
      (toL "gpt-5.2") 400 (toL "tools unsupported") none).2.2.1 (by decide) rfl]
  decide

/-! ## `src/app/api/ask/route.ts` : request validation (lines 157-169) -/

/-- The two possible pre-stream outcomes of the POST handler. -/
inductive RouteDecision where
  | badRequest (status : ℕ) (msg : Str)
  | sse
deriving DecidableEq

/-- Embedding of the validation at the top of `POST`: reject 400 when there is
no question, no images and no PDFs; reject 400 when no models; otherwise the
SSE stream is created and returned. -/
def validateAskRequest (question : Str) (images pdfs models : List Str) :
    RouteDecision :=
  if question = [] ∧ images = [] ∧ pdfs = [] then
    RouteDecision.badRequest 400 (toL "No question or images provided")
  else if models = [] then
    RouteDecision.badRequest 400 (toL "No models selected")
  else RouteDecision.sse

/-- Claim C7: a request with no content and no models is rejected with
HTTP 400 before any SSE framing; a request with at least one of
question/images/pdfs and at least one model id starts the SSE stream. -/
theorem ask_request_validation (question : Str) (images pdfs models : List Str) :
    (question = [] → images = [] → pdfs = [] → models = [] →
      validateAskRequest question images pdfs models =
        RouteDecision.badRequest 400 (toL "No question or images provided")) ∧
    ((question ≠ [] ∨ images ≠ [] ∨ pdfs ≠ []) → models ≠ [] →
      validateAskRequest question images pdfs models = RouteDecision.sse) := by
  constructor
  · intro h1 h2 h3 _
    simp [validateAskRequest, h1, h2, h3]
  · intro hcontent hmodels
    have hnot : ¬ (question = [] ∧ images = [] ∧ pdfs = []) := by
      rintro ⟨e1, e2, e3⟩
      rcases hcontent with h | h | h
      · exact h e1
      · exact h e2
      · exact h e3
    simp [validateAskRequest, hnot, hmodels]

/-- Witness for `ask_request_validation`: a question-only request with one
model starts the stream, and an empty request is rejected with 400. -/
theorem ask_request_validation_witness :
    validateAskRequest (toL "q") [] [] [toL "m"] = RouteDecision.sse ∧
    validateAskRequest [] [] [] [] =
      RouteDecision.badRequest 400 (toL "No question or images provided") := by
  constructor
  · exact (ask_request_validation (toL "q") [] [] [toL "m"]).2
      (Or.inl (by decide)) (by decide)
  · exact (ask_request_validation [] [] [] []).1 rfl rfl rfl rfl

/-! ## `src/app/api/ask/route.ts` : per-model history rebuild
(lines 246-275 OpenAI, 375-402 Gemini, 490-515 Claude)

A sanitized `ConversationTurn` carries the user text, the (string → string)
`modelAnswers` map as an association list, and the user images. -/

/-- A sanitized history turn. -/
structure ConversationTurn where
  userText : Str
  modelAnswers : List (Str × Str)
  userImages : List Str
deriving DecidableEq

/-- `turn.modelAnswers?.[modelId]`. -/
def lookupAnswer (answers : List (Str × Str)) (modelId : Str) : Option Str :=
  (answers.find? fun p => decide (p.1 = modelId)).map fun p => p.2

/-- The `^data:([^;]+);base64,(.+)$` match used by the image/PDF converters:
returns the mime type and base64 payload on success.  (The JS `.` does not
match a newline; base64 payloads and mime types never contain one.) -/
def parseDataUri (s : Str) : Option (Str × Str) :=
  if toL "data:" <+: s then
    let rest := s.drop 5
    let mime := rest.takeWhile fun c => c ≠ ';'
    let after := rest.drop mime.length
    if mime ≠ [] ∧ toL ";base64," <+: after ∧ after.drop 8 ≠ [] then
      some (mime, after.drop 8)
    else none
  else none

/-- Embedding of `toGeminiInlineData` (lines 32-47): parsed data URI or the
`image/jpeg` default. -/
def toGeminiInlineData (image : Str) : Str × Str :=
  match parseDataUri image with
  | some md => md
  | none => (toL "image/jpeg", image)

/-- The `data:`-prefixing of image URLs in the OpenAI branch
(lines 240 and 257). -/
def openAIImageUrl (img : Str) : Str :=
  if toL "data:" <+: img then img else toL "data:image/jpeg;base64," ++ img

/-- Content part of an OpenAI chat message. -/
inductive OAIPart where
  | text (t : Str)
  | imageUrl (url : Str)
deriving DecidableEq

/-- An OpenAI history message: a user message with content parts or an
assistant message with string content. -/
inductive OAIMsg where
  | user (parts : List OAIPart)
  | assistant (text : Str)
deriving DecidableEq

/-- Gemini content role. -/
inductive GemRole where
  | user
  | model
deriving DecidableEq

/-- Part of a Gemini content (text or inline data). -/
inductive GemMsgPart where
  | text (t : Str)
  | inlineData (mime data : Str)
deriving DecidableEq

/-- One Gemini conversation content. -/
structure GemContent where
  role : GemRole
  parts : List GemMsgPart
deriving DecidableEq

/-- Content part of a Claude message. -/
inductive ClaudePart where
  | text (t : Str)
  | image (mediaType data : Str)
  | document (data : Str)
deriving DecidableEq

/-- A Claude history message. -/
inductive ClaudeMsg where
  | user (parts : List ClaudePart)
  | assistant (text : Str)
deriving DecidableEq

/-- Embedding of `toClaudeImagePart` (lines 49-72). -/
def toClaudeImagePart (image : Str) : ClaudePart :=
  match parseDataUri image with
  | some md => ClaudePart.image md.1 md.2
  | none => ClaudePart.image (toL "image/jpeg") image

/-- Messages contributed by one sanitized turn to the OpenAI history
(lines 248-275): the user message (text plus images) always, the assistant
message only when `modelAnswers[modelId]` is truthy with non-blank trim. -/
def openAITurnMessages (modelId : Str) (turn : ConversationTurn) : List OAIMsg :=
  let userContent := OAIPart.text turn.userText ::
    turn.userImages.map fun img => OAIPart.imageUrl (openAIImageUrl img)
  [OAIMsg.user userContent] ++
    (match lookupAnswer turn.modelAnswers modelId with
     | some a => if a ≠ [] ∧ trimStr a ≠ [] then [OAIMsg.assistant a] else []
     | none => [])

/-- Contents contributed by one sanitized turn to the Gemini history
(lines 375-402); `questionPre` is the language-dependent question marker. -/
def geminiTurnContents (questionPre modelId : Str) (turn : ConversationTurn) :
    List GemContent :=
  let userParts := GemMsgPart.text (questionPre ++ turn.userText) ::
    turn.userImages.map fun img =>
      GemMsgPart.inlineData (toGeminiInlineData img).1 (toGeminiInlineData img).2
  [GemContent.mk GemRole.user userParts] ++
    (match lookupAnswer turn.modelAnswers modelId with
     | some a =>
       if a ≠ [] ∧ trimStr a ≠ [] then
         [GemContent.mk GemRole.model [GemMsgPart.text a]]
       else []
     | none => [])

/-- Messages contributed by one sanitized turn to the Claude history
(lines 490-515): the user message is pushed only when it has content. -/
def claudeTurnMessages (modelId : Str) (turn : ConversationTurn) : List ClaudeMsg :=
  let userContent :=
    (if trimStr turn.userText ≠ [] then [ClaudePart.text turn.userText] else []) ++
      turn.userImages.map toClaudeImagePart
  (if userContent ≠ [] then [ClaudeMsg.user userContent] else []) ++
    (match lookupAnswer turn.modelAnswers modelId with
     | some a => if a ≠ [] ∧ trimStr a ≠ [] then [ClaudeMsg.assistant a] else []
     | none => [])

/-- Is an OpenAI message an assistant message? -/
def isOAIAssistant : OAIMsg → Bool
  | OAIMsg.assistant _ => true
  | _ => false

/-- Is a Gemini content a model-role content? -/
def isGemModelRole (c : GemContent) : Bool := decide (c.role = GemRole.model)

/-- Is a Claude message an assistant message? -/
def isClaudeAssistant : ClaudeMsg → Bool
  | ClaudeMsg.assistant _ => true
  | _ => false

/-- Claim C8: a sanitized turn whose `modelAnswers` holds no non-blank answer
for the given model id contributes no assistant/model-role message to any of
the three rebuilt provider histories. -/
theorem history_no_blank_assistant (modelId questionPre : Str)
    (turn : ConversationTurn)
    (h : ∀ a, lookupAnswer turn.modelAnswers modelId = some a → trimStr a = []) :
    (openAITurnMessages modelId turn).all (fun m => !isOAIAssistant m) = true ∧
    (geminiTurnContents questionPre modelId turn).all
      (fun c => !isGemModelRole c) = true ∧
    (claudeTurnMessages modelId turn).all (fun m => !isClaudeAssistant m) = true := by
  refine ⟨?_, ?_, ?_⟩
  · cases hlook : lookupAnswer turn.modelAnswers modelId with
    | none => simp [openAITurnMessages, hlook, isOAIAssistant]
    | some a =>
      have hblank := h a hlook
      simp [openAITurnMessages, hlook, hblank, isOAIAssistant]
  · cases hlook : lookupAnswer turn.modelAnswers modelId with
    | none => simp [geminiTurnContents, hlook, isGemModelRole]
    | some a =>
      have hblank := h a hlook
      simp [geminiTurnContents, hlook, hblank, isGemModelRole]
  · cases hlook : lookupAnswer turn.modelAnswers modelId with
    | none =>
      simp only [claudeTurnMessages, hlook, List.append_nil]
      split_ifs <;> simp [isClaudeAssistant]
    | some a =>
      have hblank := h a hlook
      simp only [claudeTurnMessages, hlook, hblank]
      split_ifs <;> simp_all [isClaudeAssistant]

/-- Witness for `history_no_blank_assistant`: a turn with empty
`modelAnswers` and no images contributes no assistant message anywhere. -/
theorem history_no_blank_assistant_witness :
    (openAITurnMessages (toL "m") ⟨toL "hi", [], []⟩).all
      (fun m => !isOAIAssistant m) = true ∧
    (geminiTurnContents (toL "Question:") (toL "m") ⟨toL "hi", [], []⟩).all
      (fun c => !isGemModelRole c) = true ∧
    (claudeTurnMessages (toL "m") ⟨toL "hi", [], []⟩).all
      (fun m => !isClaudeAssistant m) = true :=
  history_no_blank_assistant (toL "m") (toL "Question:") ⟨toL "hi", [], []⟩
    (fun a ha => by simp [lookupAnswer] at ha)

/-! ## `src/app/api/ask/route.ts` : SSE envelopes and multiplexing
(lines 171-611)

Each per-model branch writes its envelopes in program order; the shared
writer serializes the concurrent branches, so the wire output is some
interleaving of the per-branch envelope sequences followed by the single
`complete` envelope written after `Promise.all`. -/

/-- An outbound SSE envelope. -/
inductive Envelope where
  | start (modelId modelName : Str)
  | chunk (modelId : Str) (content : Str)
  | reasoningStart (modelId : Str)
  | reasoningChunk (modelId : Str) (content : Str)
  | reasoningDoneEnv (modelId : Str)
  | done (modelId : Str)
  | errorEnv (modelId : Str) (msg : Str)
  | complete
deriving DecidableEq

/-- The model id an envelope is tagged with (`complete` has none). -/
def envModelId : Envelope → Option Str
  | Envelope.start m _ => some m
  | Envelope.chunk m _ => some m
  | Envelope.reasoningStart m => some m
  | Envelope.reasoningChunk m _ => some m
  | Envelope.reasoningDoneEnv m => some m
  | Envelope.done m => some m
  | Envelope.errorEnv m _ => some m
  | Envelope.complete => none

/-- `done` or `error`: the terminal envelope of one per-model branch. -/
def isTerminator : Envelope → Bool
  | Envelope.done _ => true
  | Envelope.errorEnv _ _ => true
  | _ => false

/-- Is this the `complete` envelope? -/
def isComplete : Envelope → Bool
  | Envelope.complete => true
  | _ => false

/-- A `chunk`/`reasoning_summary_chunk` envelope must carry non-empty
content; all other envelopes are unconstrained. -/
def chunkContentOk : Envelope → Bool
  | Envelope.chunk _ c => !c.isEmpty
  | Envelope.reasoningChunk _ c => !c.isEmpty
  | _ => true

/-- Per-model forwarding state: `reasoningSummaryStarted` and
`reasoningSummaryDone`. -/
structure FwdState where
  started : Bool
  doneEmitted : Bool
deriving DecidableEq

/-- Forward one adapter event to the wire (the body of the
`for await (const event of ...)` loop, identical in the three provider
branches): deltas with missing or empty content are dropped; the first
forwarded reasoning delta is preceded by `reasoning_summary_start`; the
`reasoning_summary_done` envelope is forwarded only once and only after a
reasoning start. -/
def forwardOne (m : Str) (st : FwdState) (e : NEvent) : List Envelope × FwdState :=
  match e with
  | NEvent.answerDelta c =>
    (match c with
     | some s => if s = [] then [] else [Envelope.chunk m s]
     | none => [], st)
  | NEvent.reasoningDelta c =>
    match c with
    | some s =>
      if s = [] then ([], st)
      else if st.started then ([Envelope.reasoningChunk m s], st)
      else ([Envelope.reasoningStart m, Envelope.reasoningChunk m s],
            ⟨true, st.doneEmitted⟩)
    | none => ([], st)
  | NEvent.reasoningDone =>
    if st.started && !st.doneEmitted then
      ([Envelope.reasoningDoneEnv m], ⟨st.started, true⟩)
    else ([], st)

/-- Forward a whole adapter event sequence. -/
def forwardEvents (m : Str) : FwdState → List NEvent → List Envelope × FwdState
  | st, [] => ([], st)
  | st, e :: es =>
    let r := forwardOne m st e
    let rest := forwardEvents m r.2 es
    (r.1 ++ rest.1, rest.2)

/-- How one adapter invocation went: the yielded events followed by a clean
finish, or by a thrown error. -/
inductive AdapterRun where
  | ok (events : List NEvent)
  | fail (events : List NEvent) (msg : Str)
deriving DecidableEq

/-- The envelope sequence written by one per-model branch: an unknown model
id writes a single isolated `error`; otherwise `start`, the forwarded
events, on success the trailing `reasoning_summary_done` flush and `done`,
and on failure (the `catch` block) the `error` envelope. -/
def perModelEnvelopes (modelId : Str) (cfgName : Option Str) (run : AdapterRun) :
    List Envelope :=
  match cfgName with
  | none => [Envelope.errorEnv modelId (toL "Model not found")]
  | some name =>
    match run with
    | AdapterRun.ok events =>
      let r := forwardEvents modelId ⟨false, false⟩ events
      Envelope.start modelId name :: r.1 ++
        (if r.2.started && !r.2.doneEmitted then
          [Envelope.reasoningDoneEnv modelId]
         else []) ++
        [Envelope.done modelId]
    | AdapterRun.fail events msg =>
      let r := forwardEvents modelId ⟨false, false⟩ events
      Envelope.start modelId name :: r.1 ++ [Envelope.errorEnv modelId msg]

/-- One selected model: its id, its resolved config name (`none` when
`getModelById` finds nothing), and how its adapter invocation went. -/
structure ModelSpec where
  mid : Str
  cfgName : Option Str
  run : AdapterRun
deriving DecidableEq

/-- `Merge as bs cs`: `cs` is an order-preserving interleaving of `as` and
`bs`. -/
inductive Merge {α : Type} : List α → List α → List α → Prop where
  | nil : Merge [] [] []
  | left {a : α} {as bs cs : List α} : Merge as bs cs → Merge (a :: as) bs (a :: cs)
  | right {b : α} {as bs cs : List α} : Merge as bs cs → Merge as (b :: bs) (b :: cs)

/-- `MergeN ls out`: `out` is an order-preserving interleaving of all the
lists in `ls`. -/
def MergeN {α : Type} : List (List α) → List α → Prop
  | [], out => out = []
  | l :: ls, out => ∃ rest, MergeN ls rest ∧ Merge l rest out

/-- The wire output of one POST request after validation: some interleaving
of the per-model envelope sequences, followed by the single `complete`. -/
def RouterOutput (specs : List ModelSpec) (out : List Envelope) : Prop :=
  ∃ merged,
    MergeN (specs.map fun s => perModelEnvelopes s.mid s.cfgName s.run) merged ∧
    out = merged ++ [Envelope.complete]

theorem Merge.filter {α : Type} (p : α → Bool) {as bs cs : List α}
    (h : Merge as bs cs) : Merge (as.filter p) (bs.filter p) (cs.filter p) := by
  induction h with
  | nil => exact Merge.nil
  | @left a as bs cs h ih =>
    by_cases hp : p a = true
    · simpa [List.filter_cons, hp] using Merge.left ih
    · simpa [List.filter_cons, hp] using ih
  | @right b as bs cs h ih =>
    by_cases hp : p b = true
    · simpa [List.filter_cons, hp] using Merge.right ih
    · simpa [List.filter_cons, hp] using ih

theorem Merge.eq_of_right_nil {α : Type} {as bs cs : List α}
    (h : Merge as bs cs) (hb : bs = []) : cs = as := by
  induction h with
  | nil => rfl
  | left h ih => rw [ih hb]
  | right h ih => simp at hb

theorem Merge.eq_of_left_nil {α : Type} {as bs cs : List α}
    (h : Merge as bs cs) (ha : as = []) : cs = bs := by
  induction h with
  | nil => rfl
  | left h ih => simp at ha
  | right h ih => rw [ih ha]

theorem Merge.mem_or {α : Type} {as bs cs : List α} (h : Merge as bs cs)
    {x : α} (hx : x ∈ cs) : x ∈ as ∨ x ∈ bs := by
  induction h with
  | nil => simp at hx
  | @left a as bs cs h ih =>
    rcases List.mem_cons.mp hx with rfl | hx'
    · exact Or.inl (List.mem_cons_self _ _)
    · rcases ih hx' with h1 | h2
      · exact Or.inl (List.mem_cons_of_mem _ h1)
      · exact Or.inr h2
  | @right b as bs cs h ih =>
    rcases List.mem_cons.mp hx with rfl | hx'
    · exact Or.inr (List.mem_cons_self _ _)
    · rcases ih hx' with h1 | h2
      · exact Or.inl h1
      · exact Or.inr (List.mem_cons_of_mem _ h2)

theorem MergeN.mem_exists {α : Type} {ls : List (List α)} {out : List α}
    (h : MergeN ls out) {x : α} (hx : x ∈ out) : ∃ l ∈ ls, x ∈ l := by
  induction ls generalizing out with
  | nil =>
    rw [show MergeN [] out = (out = []) from rfl] at h
    subst h
    simp at hx
  | cons l ls ih =>
    obtain ⟨rest, hrest, hmerge⟩ := h
    rcases hmerge.mem_or hx with h1 | h2
    · exact ⟨l, List.mem_cons_self _ _, h1⟩
    · obtain ⟨l', hl', hxl'⟩ := ih hrest h2
      exact ⟨l', List.mem_cons_of_mem _ hl', hxl'⟩

theorem MergeN.filter_nil {α : Type} (p : α → Bool) {ls : List (List α)}
    {out : List α} (h : MergeN ls out)
    (hall : ∀ l ∈ ls, l.filter p = []) : out.filter p = [] := by
  induction ls generalizing out with
  | nil =>
    rw [show MergeN [] out = (out = []) from rfl] at h
    subst h
    rfl
  | cons l ls ih =>
    obtain ⟨rest, hrest, hmerge⟩ := h
    have h1 : l.filter p = [] := hall l (List.mem_cons_self _ _)
    have h2 : rest.filter p = [] := ih hrest fun x hx =>
      hall x (List.mem_cons_of_mem _ hx)
    have h3 := hmerge.filter p
    rw [h1, h2] at h3
    exact h3.eq_of_right_nil rfl

theorem MergeN.filter_proj {α : Type} (p : α → Bool) (ls₁ : List (List α))
    (target : List α) (ls₂ : List (List α)) (out : List α)
    (h : MergeN (ls₁ ++ target :: ls₂) out)
    (h1 : ∀ l ∈ ls₁, l.filter p = []) (h2 : ∀ l ∈ ls₂, l.filter p = [])
    (htar : target.filter p = target) : out.filter p = target := by
  induction ls₁ generalizing out with
  | nil =>
    obtain ⟨rest, hrest, hmerge⟩ := h
    have hrestf : rest.filter p = [] := MergeN.filter_nil p hrest h2
    have h3 := hmerge.filter p
    rw [htar, hrestf] at h3
    exact h3.eq_of_right_nil rfl
  | cons l ls₁ ih =>
    obtain ⟨rest, hrest, hmerge⟩ := h
    have hstep : rest.filter p = target :=
      ih rest hrest fun x hx => h1 x (List.mem_cons_of_mem _ hx)
    have hlf : l.filter p = [] := h1 l (List.mem_cons_self _ _)
    have h3 := hmerge.filter p
    rw [hlf, hstep] at h3
    exact h3.eq_of_left_nil rfl

theorem forwardOne_props (m : Str) (st : FwdState) (e : NEvent) :
    ∀ env ∈ (forwardOne m st e).1,
      envModelId env = some m ∧ isTerminator env = false ∧
      isComplete env = false ∧ chunkContentOk env = true := by
  cases e with
  | answerDelta c =>
    cases c with
    | none => simp [forwardOne]
    | some s =>
      by_cases h : s = [] <;>
        simp [forwardOne, h, envModelId, isTerminator, isComplete, chunkContentOk]
  | reasoningDelta c =>
    cases c with
    | none => simp [forwardOne]
    | some s =>
      by_cases h : s = []
      · simp [forwardOne, h]
      · by_cases hst : st.started = true <;>
          simp [forwardOne, h, hst, envModelId, isTerminator, isComplete,
            chunkContentOk]
  | reasoningDone =>
    by_cases h : (st.started && !st.doneEmitted) = true <;>
      simp [forwardOne, h, envModelId, isTerminator, isComplete, chunkContentOk]

theorem forwardEvents_props (m : Str) (st : FwdState) (events : List NEvent) :
    ∀ env ∈ (forwardEvents m st events).1,
      envModelId env = some m ∧ isTerminator env = false ∧
      isComplete env = false ∧ chunkContentOk env = true := by
  induction events generalizing st with
  | nil => simp [forwardEvents]
  | cons e es ih =>
    intro env henv
    simp only [forwardEvents, List.mem_append] at henv
    rcases henv with h | h
    · exact forwardOne_props m st e env h
    · exact ih _ env h

theorem perModelEnvelopes_props (mid : Str) (cfgName : Option Str)
    (run : AdapterRun) :
    ∀ env ∈ perModelEnvelopes mid cfgName run,
      envModelId env = some mid ∧ isComplete env = false ∧
      chunkContentOk env = true := by
  intro env henv
  cases cfgName with
  | none =>
    simp only [perModelEnvelopes, List.mem_singleton] at henv
    subst henv
    exact ⟨rfl, rfl, rfl⟩
  | some name =>
    cases run with
    | ok events =>
      simp only [perModelEnvelopes, List.cons_append, List.mem_cons,
        List.mem_append] at henv
      rcases henv with rfl | hrest
      · exact ⟨rfl, rfl, rfl⟩
      rcases hrest with (h | h) | h
      · obtain ⟨h1, -, h3, h4⟩ := forwardEvents_props mid ⟨false, false⟩ events env h
        exact ⟨h1, h3, h4⟩
      · split_ifs at h
        · simp only [List.mem_singleton] at h
          subst h
          exact ⟨rfl, rfl, rfl⟩
        · simp at h
      · rcases h with rfl | h
        · exact ⟨rfl, rfl, rfl⟩
        · simp at h
    | fail events msg =>
      simp only [perModelEnvelopes, List.cons_append, List.mem_cons,
        List.mem_append] at henv
      rcases henv with rfl | hrest
      · exact ⟨rfl, rfl, rfl⟩
      rcases hrest with h | h
      · obtain ⟨h1, -, h3, h4⟩ := forwardEvents_props mid ⟨false, false⟩ events env h
        exact ⟨h1, h3, h4⟩
      · rcases h with rfl | h
        · exact ⟨rfl, rfl, rfl⟩
        · simp at h

theorem perModelEnvelopes_structure (mid name : Str) (run : AdapterRun) :
    (perModelEnvelopes mid (some name) run).head? =
      some (Envelope.start mid name) ∧
    (perModelEnvelopes mid (some name) run).countP isTerminator = 1 ∧
    ∃ t, (perModelEnvelopes mid (some name) run).getLast? = some t ∧
      isTerminator t = true := by
  have hfw : ∀ events,
      (forwardEvents mid (⟨false, false⟩ : FwdState) events).1.countP isTerminator = 0 :=
    fun events => List.countP_eq_zero.mpr fun a ha => by
      simp [(forwardEvents_props mid ⟨false, false⟩ events a ha).2.1]
  cases run with
  | ok events =>
    refine ⟨rfl, ?_, ?_⟩
    · simp only [perModelEnvelopes]
      split_ifs with hflush <;>
        simp [List.countP_cons, List.countP_append, hfw, isTerminator]
    · refine ⟨Envelope.done mid, ?_, rfl⟩
      have hshape : perModelEnvelopes mid (some name) (AdapterRun.ok events) =
          (Envelope.start mid name ::
            ((forwardEvents mid ⟨false, false⟩ events).1 ++
              (if (forwardEvents mid ⟨false, false⟩ events).2.started &&
                  !(forwardEvents mid ⟨false, false⟩ events).2.doneEmitted then
                [Envelope.reasoningDoneEnv mid]
               else []))) ++ [Envelope.done mid] := by
        simp [perModelEnvelopes, List.append_assoc]
      rw [hshape]
      exact List.getLast?_concat _
  | fail events msg =>
    refine ⟨rfl, ?_, ?_⟩
    · simp [perModelEnvelopes, List.countP_cons, List.countP_append, hfw,
        isTerminator]
    · refine ⟨Envelope.errorEnv mid msg, ?_, rfl⟩
      have hshape : perModelEnvelopes mid (some name) (AdapterRun.fail events msg) =
          (Envelope.start mid name ::
            (forwardEvents mid ⟨false, false⟩ events).1) ++
            [Envelope.errorEnv mid msg] := by
        simp [perModelEnvelopes]
      rw [hshape]
      exact List.getLast?_concat _

/-- The envelopes written for one model id. -/
def filterById (m : Str) (out : List Envelope) : List Envelope :=
  out.filter fun env => decide (envModelId env = some m)

/-- Claim C4 (as stated) is false on the code when the same model id is
selected twice: both branches write full `start .. done` sequences tagged
with the same id, so the wire sequence for that id contains two `done`
terminators instead of exactly one. -/
theorem router_duplicate_model_counterexample :
    RouterOutput
      [⟨toL "m", some (toL "M"), AdapterRun.ok []⟩,
       ⟨toL "m", some (toL "M"), AdapterRun.ok []⟩]
      [Envelope.start (toL "m") (toL "M"), Envelope.done (toL "m"),
       Envelope.start (toL "m") (toL "M"), Envelope.done (toL "m"),
       Envelope.complete] ∧
    (filterById (toL "m")
      [Envelope.start (toL "m") (toL "M"), Envelope.done (toL "m"),
       Envelope.start (toL "m") (toL "M"), Envelope.done (toL "m"),
       Envelope.complete]).countP isTerminator ≠ 1 := by
  constructor
  · refine ⟨[Envelope.start (toL "m") (toL "M"), Envelope.done (toL "m"),
      Envelope.start (toL "m") (toL "M"), Envelope.done (toL "m")], ?_, rfl⟩
    show ∃ rest, (∃ rest', rest' = [] ∧ Merge _ rest' rest) ∧ Merge _ rest _
    exact ⟨[Envelope.start (toL "m") (toL "M"), Envelope.done (toL "m")],
      ⟨[], rfl, Merge.left (Merge.left Merge.nil)⟩,
      Merge.left (Merge.left (Merge.right (Merge.right Merge.nil)))⟩
  · decide

/-- Claim C4 (amended, adding the hypothesis that the selected model ids are
pairwise distinct): for every router output and every selected model whose
config is known, the envelope subsequence for that model id starts with its
`start` envelope (hence every `chunk`/`reasoning_summary_chunk` for that id
is preceded by `start`), contains exactly one terminator (`done` or `error`)
and ends with it, and the single `complete` envelope is the last envelope of
the whole stream, after every per-model terminator. -/
theorem router_per_model_envelope_discipline (specs : List ModelSpec)
    (out : List Envelope)
    (hnodup : (specs.map fun s => s.mid).Nodup)
    (hout : RouterOutput specs out)
    (s : ModelSpec) (hs : s ∈ specs) (name : Str) (hcfg : s.cfgName = some name) :
    (filterById s.mid out).head? = some (Envelope.start s.mid name) ∧
    (filterById s.mid out).countP isTerminator = 1 ∧
    (∃ t, (filterById s.mid out).getLast? = some t ∧ isTerminator t = true) ∧
    out.getLast? = some Envelope.complete ∧
    out.countP isComplete = 1 := by
  obtain ⟨merged, hmergeN, hout_eq⟩ := hout
  obtain ⟨ls₁, ls₂, hspecs⟩ := List.append_of_mem hs
  have hproj : merged.filter (fun env => decide (envModelId env = some s.mid)) =
      perModelEnvelopes s.mid s.cfgName s.run := by
    subst hspecs
    rw [List.map_append, List.map_cons] at hmergeN
    rw [List.map_append, List.map_cons] at hnodup
    obtain ⟨hnd1, hnd2, hdisj⟩ := List.nodup_append.mp hnodup
    have hnotin2 : s.mid ∉ ls₂.map fun x => x.mid := (List.nodup_cons.mp hnd2).1
    have hnotin1 : s.mid ∉ ls₁.map fun x => x.mid := fun hmem =>
      hdisj hmem (List.mem_cons_self _ _)
    have hothers : ∀ x : ModelSpec, x.mid ≠ s.mid →
        (perModelEnvelopes x.mid x.cfgName x.run).filter
          (fun env => decide (envModelId env = some s.mid)) = [] := by
      intro x hx
      apply List.filter_eq_nil_iff.mpr
      intro a ha
      have := (perModelEnvelopes_props x.mid x.cfgName x.run a ha).1
      simp [this, hx]
    refine MergeN.filter_proj _ (ls₁.map fun x => perModelEnvelopes x.mid x.cfgName x.run)
      _ (ls₂.map fun x => perModelEnvelopes x.mid x.cfgName x.run) merged hmergeN
      ?_ ?_ ?_
    · intro l hl
      obtain ⟨x, hx, rfl⟩ := List.mem_map.mp hl
      refine hothers x fun heq => hnotin1 ?_
      exact List.mem_map.mpr ⟨x, hx, heq⟩
    · intro l hl
      obtain ⟨x, hx, rfl⟩ := List.mem_map.mp hl
      refine hothers x fun heq => hnotin2 ?_
      exact List.mem_map.mpr ⟨x, hx, heq⟩
    · apply List.filter_eq_self.mpr
      intro a ha
      have := (perModelEnvelopes_props s.mid s.cfgName s.run a ha).1
      simp [this]
  have hfilter_out : filterById s.mid out = perModelEnvelopes s.mid s.cfgName s.run := by
    rw [hout_eq]
    simp only [filterById, List.filter_append]
    rw [hproj]
    simp [envModelId]
  have hstruct := perModelEnvelopes_structure s.mid name s.run
  rw [hcfg] at hfilter_out
  refine ⟨?_, ?_, ?_, ?_, ?_⟩
  · rw [hfilter_out]
    exact hstruct.1
  · rw [hfilter_out]
    exact hstruct.2.1
  · rw [hfilter_out]
    exact hstruct.2.2
  · rw [hout_eq]
    exact List.getLast?_concat _
  · rw [hout_eq]
    rw [List.countP_append]
    have hmerged0 : merged.countP isComplete = 0 := by
      apply List.countP_eq_zero.mpr
      intro a ha
      obtain ⟨l, hl, hal⟩ := hmergeN.mem_exists ha
      obtain ⟨x, -, rfl⟩ := List.mem_map.mp hl
      have := (perModelEnvelopes_props x.mid x.cfgName x.run a hal).2.1
      simp [this]
    rw [hmerged0]
    simp [isComplete, List.countP_cons]

/-- Witness for `router_per_model_envelope_discipline`: one known model with
an empty adapter run produces `start`, `done`, `complete`. -/
theorem router_per_model_envelope_discipline_witness :
    (filterById (toL "m")
      [Envelope.start (toL "m") (toL "M"), Envelope.done (toL "m"),
       Envelope.complete]).head? = some (Envelope.start (toL "m") (toL "M")) ∧
    (filterById (toL "m")
      [Envelope.start (toL "m") (toL "M"), Envelope.done (toL "m"),
       Envelope.complete]).countP isTerminator = 1 ∧
    (∃ t, (filterById (toL "m")
      [Envelope.start (toL "m") (toL "M"), Envelope.done (toL "m"),
       Envelope.complete]).getLast? = some t ∧ isTerminator t = true) ∧
    [Envelope.start (toL "m") (toL "M"), Envelope.done (toL "m"),
     Envelope.complete].getLast? = some Envelope.complete ∧
    [Envelope.start (toL "m") (toL "M"), Envelope.done (toL "m"),
     Envelope.complete].countP isComplete = 1 := by
  refine router_per_model_envelope_discipline
    [⟨toL "m", some (toL "M"), AdapterRun.ok []⟩]
    [Envelope.start (toL "m") (toL "M"), Envelope.done (toL "m"),
     Envelope.complete]
    (by simp) ?_ ⟨toL "m", some (toL "M"), AdapterRun.ok []⟩ (by simp) (toL "M") rfl
  refine ⟨[Envelope.start (toL "m") (toL "M"), Envelope.done (toL "m")], ?_, rfl⟩
  show ∃ rest, rest = [] ∧ Merge _ rest _
  exact ⟨[], rfl, Merge.left (Merge.left Merge.nil)⟩

/-- Claim C10: every `chunk` / `reasoning_summary_chunk` envelope that
reaches the wire carries non-empty content: adapter deltas with missing or
empty content are dropped by the forwarding guards. -/
theorem router_chunks_nonempty (specs : List ModelSpec) (out : List Envelope)
    (hout : RouterOutput specs out) :
    out.all chunkContentOk = true := by
  obtain ⟨merged, hmergeN, hout_eq⟩ := hout
  subst hout_eq
  rw [List.all_append, Bool.and_eq_true]
  constructor
  · rw [List.all_eq_true]
    intro env henv
    obtain ⟨l, hl, hel⟩ := hmergeN.mem_exists henv
    obtain ⟨x, -, rfl⟩ := List.mem_map.mp hl
    exact (perModelEnvelopes_props x.mid x.cfgName x.run env hel).2.2
  · decide

/-- Witness for `router_chunks_nonempty` at a concrete single-model output. -/
theorem router_chunks_nonempty_witness :
    [Envelope.start (toL "m") (toL "M"), Envelope.chunk (toL "m") (toL "A"),
     Envelope.done (toL "m"), Envelope.complete].all chunkContentOk = true := by
  refine router_chunks_nonempty
    [⟨toL "m", some (toL "M"), AdapterRun.ok [NEvent.answerDelta (some (toL "A"))]⟩]
    _ ?_
  refine ⟨[Envelope.start (toL "m") (toL "M"), Envelope.chunk (toL "m") (toL "A"),
    Envelope.done (toL "m")], ?_, rfl⟩
  show ∃ rest, rest = [] ∧ Merge _ rest _
  exact ⟨[], rfl, Merge.left (Merge.left (Merge.left Merge.nil))⟩
